import Mathlib

/-!
# Verification of the Chan-theory analysis pipeline

Shallow embedding of the swing-structure analysis core of the
stock-collection repository: fractal detection, stroke construction,
pivot (center) detection, buy/sell signal classification and
multi-timeframe synchronization, together with proofs of the
documented properties.

Prices are modelled as rationals, volumes as integers, and timestamps
as naturals (the source orders bars by a string timestamp; only the
ordering is relevant).  Python `list` slices, `max`/`min` over
non-empty lists, and the scanning loops are translated directly;
loops whose index is not structurally decreasing are given an explicit
iteration budget (`fuel`) that the callers instantiate with a bound
that the progress lemmas show is sufficient.
-/

set_option autoImplicit false

/-- One OHLCV bar.  Mirrors the dict rows `{'minute', 'symbol', 'open',
'high', 'low', 'close', 'volume'}` used throughout the source. -/
structure Bar where
  minute : Nat
  symbol : String
  open_p : ℚ
  high : ℚ
  low : ℚ
  close : ℚ
  volume : Int
  deriving Repr, DecidableEq, Inhabited

/-- Python `max(xs)` over a non-empty list (`0` on `[]`, which the
source never evaluates: Python would raise there). -/
def listMax : List ℚ → ℚ
  | [] => 0
  | x :: xs => xs.foldl max x

/-- Python `min(xs)` over a non-empty list (`0` on `[]`). -/
def listMin : List ℚ → ℚ
  | [] => 0
  | x :: xs => xs.foldl min x

/-- Python slice `bars[i:e+1]`. -/
def seg (bars : List Bar) (i e : Nat) : List Bar :=
  (bars.drop i).take (e + 1 - i)

/-- Python slice `l[-n:]` for `n > 0`. -/
def lastN (l : List Bar) (n : Nat) : List Bar :=
  l.drop (l.length - n)

/-- Python `bars[j]` (used only in positions the source guards). -/
def barAt (bars : List Bar) (j : Nat) : Bar :=
  bars.getD j default

theorem listMax_append_singleton (l : List ℚ) (x : ℚ) (h : l ≠ []) :
    listMax (l ++ [x]) = max (listMax l) x := by
  match l with
  | [] => exact absurd rfl h
  | y :: ys => simp [listMax, List.foldl_append]

theorem listMin_append_singleton (l : List ℚ) (x : ℚ) (h : l ≠ []) :
    listMin (l ++ [x]) = min (listMin l) x := by
  match l with
  | [] => exact absurd rfl h
  | y :: ys => simp [listMin, List.foldl_append]

theorem le_foldl_max (a : ℚ) (l : List ℚ) : a ≤ l.foldl max a := by
  induction l generalizing a with
  | nil => simp
  | cons x xs ih => exact le_trans (le_max_left a x) (ih (max a x))

theorem foldl_max_mem (a : ℚ) (l : List ℚ) : l.foldl max a = a ∨ l.foldl max a ∈ l := by
  induction l generalizing a with
  | nil => simp
  | cons x xs ih =>
    rcases ih (max a x) with h | h
    · rcases max_choice a x with hm | hm
      · left; show xs.foldl max (max a x) = a; rw [h, hm]
      · right; show xs.foldl max (max a x) ∈ x :: xs
        rw [h, hm]; exact List.mem_cons_self x xs
    · right; exact List.mem_cons_of_mem x h

theorem mem_le_foldl_max (a : ℚ) (l : List ℚ) (x : ℚ) (hx : x ∈ l) :
    x ≤ l.foldl max a := by
  induction l generalizing a with
  | nil => cases hx
  | cons y ys ih =>
    rcases List.mem_cons.mp hx with h | h
    · subst h; exact le_trans (le_max_right a x) (le_foldl_max _ ys)
    · exact ih _ h

theorem le_listMax (l : List ℚ) (x : ℚ) (hx : x ∈ l) : x ≤ listMax l := by
  match l with
  | [] => cases hx
  | y :: ys =>
    simp only [listMax]
    rcases List.mem_cons.mp hx with h | h
    · subst h; exact le_foldl_max x ys
    · exact mem_le_foldl_max y ys x h

theorem listMax_mem (l : List ℚ) (h : l ≠ []) : listMax l ∈ l := by
  match l with
  | [] => exact absurd rfl h
  | y :: ys =>
    simp only [listMax]
    rcases foldl_max_mem y ys with h' | h'
    · rw [h']; exact List.mem_cons_self y ys
    · exact List.mem_cons_of_mem y h'

theorem foldl_min_le (a : ℚ) (l : List ℚ) : l.foldl min a ≤ a := by
  induction l generalizing a with
  | nil => simp
  | cons x xs ih => exact le_trans (ih (min a x)) (min_le_left a x)

theorem foldl_min_mem (a : ℚ) (l : List ℚ) : l.foldl min a = a ∨ l.foldl min a ∈ l := by
  induction l generalizing a with
  | nil => simp
  | cons x xs ih =>
    rcases ih (min a x) with h | h
    · rcases min_choice a x with hm | hm
      · left; show xs.foldl min (min a x) = a; rw [h, hm]
      · right; show xs.foldl min (min a x) ∈ x :: xs
        rw [h, hm]; exact List.mem_cons_self x xs
    · right; exact List.mem_cons_of_mem x h

theorem foldl_min_le_mem (a : ℚ) (l : List ℚ) (x : ℚ) (hx : x ∈ l) :
    l.foldl min a ≤ x := by
  induction l generalizing a with
  | nil => cases hx
  | cons y ys ih =>
    rcases List.mem_cons.mp hx with h | h
    · subst h; exact le_trans (foldl_min_le _ ys) (min_le_right a x)
    · exact ih _ h

theorem listMin_le (l : List ℚ) (x : ℚ) (hx : x ∈ l) : listMin l ≤ x := by
  match l with
  | [] => cases hx
  | y :: ys =>
    simp only [listMin]
    rcases List.mem_cons.mp hx with h | h
    · subst h; exact foldl_min_le x ys
    · exact foldl_min_le_mem y ys x h

theorem listMin_mem (l : List ℚ) (h : l ≠ []) : listMin l ∈ l := by
  match l with
  | [] => exact absurd rfl h
  | y :: ys =>
    simp only [listMin]
    rcases foldl_min_mem y ys with h' | h'
    · rw [h']; exact List.mem_cons_self y ys
    · exact List.mem_cons_of_mem y h'

/-! ## `chan_theory_engine.py` — fractal and stroke detection -/

namespace ChanEngine

/-- Stroke direction (the `Direction` enum). -/
inductive Direction where
  | up
  | down
  deriving Repr, DecidableEq

/-- A fractal: `Fractal(time, price, fractal_type, index)`. -/
structure Fractal where
  time : Nat
  price : ℚ
  fractal_type : String
  index : Nat
  deriving Repr, DecidableEq, Inhabited

/-- A stroke: `Stroke(start_fractal, end_fractal, direction, high, low)`. -/
structure Stroke where
  start_fractal : Fractal
  end_fractal : Fractal
  direction : Direction
  high : ℚ
  low : ℚ
  deriving Repr, DecidableEq

/-- Loop body of `ChanTheoryEngine.detect_fractals` at index `i`: a top
fractal iff `high[i] > high[i-1] ∧ high[i] > high[i+1]`; otherwise (`elif`)
a bottom fractal iff `low[i] < low[i-1] ∧ low[i] < low[i+1]`. -/
def fractal_at (klines : List Bar) (i : Nat) : Option Fractal :=
  if 1 ≤ i ∧ i + 1 < klines.length then
    let prevK := barAt klines (i - 1)
    let currK := barAt klines i
    let nextK := barAt klines (i + 1)
    if currK.high > prevK.high ∧ currK.high > nextK.high then
      some { time := currK.minute, price := currK.high, fractal_type := "top", index := i }
    else if currK.low < prevK.low ∧ currK.low < nextK.low then
      some { time := currK.minute, price := currK.low, fractal_type := "bottom", index := i }
    else none
  else none

/-- `ChanTheoryEngine.detect_fractals`: the loop
`for i in range(1, len(klines) - 1)` collecting `fractal_at`. -/
def detect_fractals (klines : List Bar) : List Fractal :=
  (List.range klines.length).filterMap (fractal_at klines)

/-- Loop body of `ChanTheoryEngine.detect_strokes` for the adjacent pair
`(fractals[i], fractals[i+1])`: opposite types whose prices satisfy the
direction condition become a stroke, with high/low the extrema over
`klines[start.index : end.index+1]`. -/
def stroke_at (fractals : List Fractal) (klines : List Bar) (i : Nat) : Option Stroke :=
  let start := fractals.getD i default
  let stop := fractals.getD (i + 1) default
  if start.fractal_type = stop.fractal_type then none
  else if start.fractal_type = "bottom" ∧ stop.fractal_type = "top" then
    if stop.price > start.price then
      let segment_klines := seg klines start.index stop.index
      some { start_fractal := start, end_fractal := stop, direction := .up,
             high := listMax (segment_klines.map Bar.high),
             low := listMin (segment_klines.map Bar.low) }
    else none
  else if start.fractal_type = "top" ∧ stop.fractal_type = "bottom" then
    if start.price > stop.price then
      let segment_klines := seg klines start.index stop.index
      some { start_fractal := start, end_fractal := stop, direction := .down,
             high := listMax (segment_klines.map Bar.high),
             low := listMin (segment_klines.map Bar.low) }
    else none
  else none

/-- `ChanTheoryEngine.detect_strokes`: the loop
`for i in range(len(fractals) - 1)` collecting `stroke_at`. -/
def detect_strokes (fractals : List Fractal) (klines : List Bar) : List Stroke :=
  (List.range (fractals.length - 1)).filterMap (stroke_at fractals klines)

theorem fractal_at_some (klines : List Bar) (i : Nat) (f : Fractal)
    (h : fractal_at klines i = some f) :
    f.index = i ∧ 1 ≤ i ∧ i + 1 < klines.length ∧
      ((f.fractal_type = "top" ∧ f.price = (barAt klines i).high ∧
          (barAt klines i).high > (barAt klines (i - 1)).high ∧
          (barAt klines i).high > (barAt klines (i + 1)).high) ∨
       (f.fractal_type = "bottom" ∧ f.price = (barAt klines i).low ∧
          (barAt klines i).low < (barAt klines (i - 1)).low ∧
          (barAt klines i).low < (barAt klines (i + 1)).low ∧
          ¬((barAt klines i).high > (barAt klines (i - 1)).high ∧
            (barAt klines i).high > (barAt klines (i + 1)).high))) := by
  simp only [fractal_at] at h
  split_ifs at h with h1 h2 h3
  · cases h
    refine ⟨rfl, h1.1, h1.2, Or.inl ⟨rfl, rfl, h2.1, h2.2⟩⟩
  · cases h
    exact ⟨rfl, h1.1, h1.2, Or.inr ⟨rfl, rfl, h3.1, h3.2, h2⟩⟩

theorem mem_detect_fractals (klines : List Bar) (f : Fractal) :
    f ∈ detect_fractals klines ↔
      ∃ i, i < klines.length ∧ fractal_at klines i = some f := by
  unfold detect_fractals
  rw [List.mem_filterMap]
  constructor
  · rintro ⟨i, hi, hf⟩
    exact ⟨i, List.mem_range.mp hi, hf⟩
  · rintro ⟨i, hi, hf⟩
    exact ⟨i, List.mem_range.mpr hi, hf⟩

end ChanEngine

/-- **C1.**  Soundness of the fractal detector for the §4.1 rule: every
returned top fractal is at an interior index whose high strictly exceeds
both neighbouring highs, every bottom fractal likewise for lows; at most
one fractal is returned per index; and an interior index satisfying both
the top and the bottom condition is returned as a top fractal (top is
checked first). -/
theorem c1_fractal_detector_sound (klines : List Bar) :
    (∀ f ∈ ChanEngine.detect_fractals klines,
        1 ≤ f.index ∧ f.index + 1 < klines.length ∧
        ((f.fractal_type = "top" ∧
            (barAt klines f.index).high > (barAt klines (f.index - 1)).high ∧
            (barAt klines f.index).high > (barAt klines (f.index + 1)).high) ∨
         (f.fractal_type = "bottom" ∧
            (barAt klines f.index).low < (barAt klines (f.index - 1)).low ∧
            (barAt klines f.index).low < (barAt klines (f.index + 1)).low))) ∧
    (∀ f ∈ ChanEngine.detect_fractals klines, ∀ g ∈ ChanEngine.detect_fractals klines,
        f.index = g.index → f = g) ∧
    (∀ i, 1 ≤ i → i + 1 < klines.length →
        (barAt klines i).high > (barAt klines (i - 1)).high ∧
          (barAt klines i).high > (barAt klines (i + 1)).high →
        (barAt klines i).low < (barAt klines (i - 1)).low ∧
          (barAt klines i).low < (barAt klines (i + 1)).low →
        ∃ f ∈ ChanEngine.detect_fractals klines, f.index = i ∧ f.fractal_type = "top") := by
  refine ⟨?_, ?_, ?_⟩
  · intro f hf
    obtain ⟨i, _, hsome⟩ := (ChanEngine.mem_detect_fractals klines f).mp hf
    obtain ⟨hidx, h1, h2, hdisj⟩ := ChanEngine.fractal_at_some klines i f hsome
    subst hidx
    rcases hdisj with ⟨ht, _, ha, hb⟩ | ⟨hb', _, hl1, hl2, _⟩
    · exact ⟨h1, h2, Or.inl ⟨ht, ha, hb⟩⟩
    · exact ⟨h1, h2, Or.inr ⟨hb', hl1, hl2⟩⟩
  · intro f hf g hg hidx
    obtain ⟨i, _, hsf⟩ := (ChanEngine.mem_detect_fractals klines f).mp hf
    obtain ⟨j, _, hsg⟩ := (ChanEngine.mem_detect_fractals klines g).mp hg
    have hfi := (ChanEngine.fractal_at_some klines i f hsf).1
    have hgj := (ChanEngine.fractal_at_some klines j g hsg).1
    have hij : i = j := by rw [← hfi, ← hgj, hidx]
    subst hij
    exact Option.some.inj (hsf.symm.trans hsg)
  · intro i h1 h2 htop _
    refine ⟨{ time := (barAt klines i).minute, price := (barAt klines i).high,
              fractal_type := "top", index := i }, ?_, rfl, rfl⟩
    refine (ChanEngine.mem_detect_fractals klines _).mpr ⟨i, by omega, ?_⟩
    simp [ChanEngine.fractal_at, h1, h2, htop.1, htop.2]

/-- Three bars whose middle bar satisfies both the top and the bottom
fractal condition. -/
def c1WitnessBars : List Bar :=
  [ { minute := 0, symbol := "s", open_p := 2, high := 2, low := 1.5, close := 2, volume := 1 },
    { minute := 1, symbol := "s", open_p := 2, high := 3, low := 1, close := 2, volume := 1 },
    { minute := 2, symbol := "s", open_p := 2, high := 2.5, low := 1.2, close := 2, volume := 1 } ]

/-- Witness for `c1_fractal_detector_sound`: the index satisfying both
conditions is returned as a top fractal on a concrete bar triple. -/
theorem c1_fractal_detector_sound_witness :
    ∃ f ∈ ChanEngine.detect_fractals c1WitnessBars, f.index = 1 ∧ f.fractal_type = "top" :=
  (c1_fractal_detector_sound c1WitnessBars).2.2 1 (by decide) (by decide)
    (by with_unfolding_all decide) (by with_unfolding_all decide)

/-! ### Slice lemmas -/

theorem seg_length (bars : List Bar) (s e : Nat) :
    (seg bars s e).length = min (e + 1 - s) (bars.length - s) := by
  simp [seg]

theorem seg_getElem? (bars : List Bar) (s e j : Nat) (h : j < e + 1 - s) :
    (seg bars s e)[j]? = bars[s + j]? := by
  simp only [seg]
  rw [List.getElem?_take_of_lt h, List.getElem?_drop]

theorem barAt_eq_of_getElem? (bars : List Bar) (j : Nat) (b : Bar)
    (h : bars[j]? = some b) : barAt bars j = b := by
  simp [barAt, List.getD_eq_getElem?_getD, h]

theorem barAt_mem_seg (bars : List Bar) (s e j : Nat)
    (hs : s ≤ j) (hj : j ≤ e) (hlen : j < bars.length) :
    barAt bars j ∈ seg bars s e := by
  refine List.mem_iff_getElem?.mpr ⟨j - s, ?_⟩
  rw [seg_getElem? bars s e _ (by omega)]
  have : s + (j - s) = j := by omega
  rw [this, List.getElem?_eq_getElem hlen]
  congr 1
  symm
  exact barAt_eq_of_getElem? bars j _ (List.getElem?_eq_getElem hlen)

theorem mem_seg_exists (bars : List Bar) (s e : Nat) (b : Bar)
    (hb : b ∈ seg bars s e) :
    ∃ j, s ≤ j ∧ j ≤ e ∧ j < bars.length ∧ barAt bars j = b := by
  obtain ⟨k, hk⟩ := List.mem_iff_getElem?.mp hb
  have hklen : k < (seg bars s e).length := by
    by_contra hcon
    rw [List.getElem?_eq_none (by omega)] at hk
    cases hk
  rw [seg_length] at hklen
  have hk1 : k < e + 1 - s := lt_of_lt_of_le hklen (min_le_left _ _)
  have hk2 : k < bars.length - s := lt_of_lt_of_le hklen (min_le_right _ _)
  rw [seg_getElem? bars s e k hk1] at hk
  exact ⟨s + k, by omega, by omega, by omega,
    barAt_eq_of_getElem? bars (s + k) b hk⟩

theorem getD_index_lt_of_pairwise {F : List ChanEngine.Fractal}
    (hp : F.Pairwise (fun f g => f.index < g.index)) (i : Nat) (h : i + 1 < F.length) :
    (F.getD i default).index < (F.getD (i + 1) default).index := by
  rw [List.pairwise_iff_getElem] at hp
  have h1 := hp i (i + 1) (by omega) h (by omega)
  have e1 : F.getD i default = F[i] := by
    simp [List.getD_eq_getElem?_getD, List.getElem?_eq_getElem (by omega : i < F.length)]
  have e2 : F.getD (i + 1) default = F[i + 1] := by
    simp [List.getD_eq_getElem?_getD, List.getElem?_eq_getElem h]
  rw [e1, e2]
  exact h1

namespace ChanEngine

theorem detect_fractals_pairwise (klines : List Bar) :
    (detect_fractals klines).Pairwise (fun f g => f.index < g.index) := by
  unfold detect_fractals
  refine List.Pairwise.filterMap (fractal_at klines) ?_ (List.pairwise_lt_range _)
  intro a b hab f hf g hg
  rw [Option.mem_def] at hf hg
  rw [(fractal_at_some klines a f hf).1, (fractal_at_some klines b g hg).1]
  exact hab

theorem mem_detect_strokes (fractals : List Fractal) (klines : List Bar) (st : Stroke) :
    st ∈ detect_strokes fractals klines ↔
      ∃ i, i < fractals.length - 1 ∧ stroke_at fractals klines i = some st := by
  unfold detect_strokes
  rw [List.mem_filterMap]
  constructor
  · rintro ⟨i, hi, hst⟩
    exact ⟨i, List.mem_range.mp hi, hst⟩
  · rintro ⟨i, hi, hst⟩
    exact ⟨i, List.mem_range.mpr hi, hst⟩

theorem stroke_at_some (fractals : List Fractal) (klines : List Bar) (i : Nat)
    (st : Stroke) (h : stroke_at fractals klines i = some st) :
    st.start_fractal = fractals.getD i default ∧
    st.end_fractal = fractals.getD (i + 1) default ∧
    st.start_fractal.fractal_type ≠ st.end_fractal.fractal_type ∧
    ((st.direction = Direction.up ∧ st.end_fractal.price > st.start_fractal.price) ∨
     (st.direction = Direction.down ∧ st.start_fractal.price > st.end_fractal.price)) ∧
    st.high = listMax ((seg klines st.start_fractal.index st.end_fractal.index).map Bar.high) ∧
    st.low = listMin ((seg klines st.start_fractal.index st.end_fractal.index).map Bar.low) := by
  simp only [stroke_at] at h
  split_ifs at h with h1 h2 h3 h4 h5
  · cases h
    exact ⟨rfl, rfl, h1, Or.inl ⟨rfl, h3⟩, rfl, rfl⟩
  · cases h
    exact ⟨rfl, rfl, h1, Or.inr ⟨rfl, h5⟩, rfl, rfl⟩

end ChanEngine

theorem getD_mem_of_lt {α : Type} [Inhabited α] (l : List α) (i : Nat)
    (h : i < l.length) : l.getD i default ∈ l := by
  rw [List.getD_eq_getElem?_getD, List.getElem?_eq_getElem h, Option.getD_some]
  exact List.getElem_mem h

/-- **C2.**  Every stroke returned by the stroke builder on the fractals of
a bar sequence satisfies the Stroke invariant: opposite fractal types, the
price condition of its direction, and high/low are attained extrema of the
bars spanned from the start fractal's index to the end fractal's index. -/
theorem c2_stroke_invariant (klines : List Bar) :
    ∀ st ∈ ChanEngine.detect_strokes (ChanEngine.detect_fractals klines) klines,
      st.start_fractal.fractal_type ≠ st.end_fractal.fractal_type ∧
      (st.direction = ChanEngine.Direction.up →
        st.end_fractal.price > st.start_fractal.price) ∧
      (st.direction = ChanEngine.Direction.down →
        st.start_fractal.price > st.end_fractal.price) ∧
      st.start_fractal.index < st.end_fractal.index ∧
      st.end_fractal.index < klines.length ∧
      (∀ j, st.start_fractal.index ≤ j → j ≤ st.end_fractal.index →
        (barAt klines j).high ≤ st.high ∧ st.low ≤ (barAt klines j).low) ∧
      (∃ j, st.start_fractal.index ≤ j ∧ j ≤ st.end_fractal.index ∧
        (barAt klines j).high = st.high) ∧
      (∃ j, st.start_fractal.index ≤ j ∧ j ≤ st.end_fractal.index ∧
        (barAt klines j).low = st.low) := by
  intro st hst
  obtain ⟨i, hi, hsome⟩ :=
    (ChanEngine.mem_detect_strokes (ChanEngine.detect_fractals klines) klines st).mp hst
  obtain ⟨hs_eq, he_eq, hty, hdir, hhigh, hlow⟩ :=
    ChanEngine.stroke_at_some (ChanEngine.detect_fractals klines) klines i st hsome
  have hlen : i + 1 < (ChanEngine.detect_fractals klines).length := by omega
  have hmono :
      st.start_fractal.index < st.end_fractal.index := by
    rw [hs_eq, he_eq]
    exact getD_index_lt_of_pairwise (ChanEngine.detect_fractals_pairwise klines) i hlen
  have hendmem : st.end_fractal ∈ ChanEngine.detect_fractals klines := by
    rw [he_eq]; exact getD_mem_of_lt _ (i + 1) hlen
  obtain ⟨j2, _, hsome2⟩ := (ChanEngine.mem_detect_fractals klines _).mp hendmem
  have hend_props := ChanEngine.fractal_at_some klines j2 _ hsome2
  have hend_lt : st.end_fractal.index < klines.length := by
    rw [hend_props.1]
    omega
  have hd_up : st.direction = ChanEngine.Direction.up →
      st.end_fractal.price > st.start_fractal.price := by
    intro hup
    rcases hdir with ⟨_, hp⟩ | ⟨hd, _⟩
    · exact hp
    · exact ChanEngine.Direction.noConfusion (hd.symm.trans hup)
  have hd_down : st.direction = ChanEngine.Direction.down →
      st.start_fractal.price > st.end_fractal.price := by
    intro hdn
    rcases hdir with ⟨hd, _⟩ | ⟨_, hp⟩
    · exact ChanEngine.Direction.noConfusion (hd.symm.trans hdn)
    · exact hp
  have hne : seg klines st.start_fractal.index st.end_fractal.index ≠ [] := by
    have hpos : 0 < (seg klines st.start_fractal.index st.end_fractal.index).length := by
      rw [seg_length, lt_min_iff]
      omega
    exact List.ne_nil_of_length_pos hpos
  refine ⟨hty, hd_up, hd_down, hmono, hend_lt, ?_, ?_, ?_⟩
  · intro j hj1 hj2
    have hjlen : j < klines.length := lt_of_le_of_lt hj2 hend_lt
    have hmem := barAt_mem_seg klines st.start_fractal.index st.end_fractal.index j hj1 hj2 hjlen
    constructor
    · rw [hhigh]
      exact le_listMax _ _ (List.mem_map_of_mem Bar.high hmem)
    · rw [hlow]
      exact listMin_le _ _ (List.mem_map_of_mem Bar.low hmem)
  · have hmapne : (seg klines st.start_fractal.index st.end_fractal.index).map Bar.high ≠ [] := by
      simpa using hne
    have hmax := listMax_mem _ hmapne
    obtain ⟨b, hbseg, hb⟩ := List.mem_map.mp hmax
    obtain ⟨j, hj1, hj2, _, hjb⟩ := mem_seg_exists klines _ _ b hbseg
    exact ⟨j, hj1, hj2, by rw [hjb, hb, hhigh]⟩
  · have hmapne : (seg klines st.start_fractal.index st.end_fractal.index).map Bar.low ≠ [] := by
      simpa using hne
    have hmin := listMin_mem _ hmapne
    obtain ⟨b, hbseg, hb⟩ := List.mem_map.mp hmin
    obtain ⟨j, hj1, hj2, _, hjb⟩ := mem_seg_exists klines _ _ b hbseg
    exact ⟨j, hj1, hj2, by rw [hjb, hb, hlow]⟩

/-- Five bars yielding a top fractal at index 1 and a bottom fractal at
index 3, hence one down stroke. -/
def c2WitnessBars : List Bar :=
  [ { minute := 0, symbol := "s", open_p := 3, high := 4, low := 3, close := 3.5, volume := 1 },
    { minute := 1, symbol := "s", open_p := 4, high := 5, low := 4, close := 4.5, volume := 1 },
    { minute := 2, symbol := "s", open_p := 3, high := 3, low := 2, close := 2.5, volume := 1 },
    { minute := 3, symbol := "s", open_p := 2, high := 2, low := 1, close := 1.5, volume := 1 },
    { minute := 4, symbol := "s", open_p := 2, high := 3, low := 1.5, close := 2, volume := 1 } ]

/-- The single stroke the builder returns on `c2WitnessBars`. -/
def c2WitnessStroke : ChanEngine.Stroke :=
  { start_fractal := { time := 1, price := 5, fractal_type := "top", index := 1 },
    end_fractal := { time := 3, price := 1, fractal_type := "bottom", index := 3 },
    direction := ChanEngine.Direction.down, high := 5, low := 1 }

/-- Witness for `c2_stroke_invariant` on a concrete bar sequence. -/
theorem c2_stroke_invariant_witness :
    c2WitnessStroke.start_fractal.fractal_type ≠ c2WitnessStroke.end_fractal.fractal_type ∧
    (barAt c2WitnessBars 2).high ≤ c2WitnessStroke.high ∧
    c2WitnessStroke.low ≤ (barAt c2WitnessBars 2).low := by
  have h := c2_stroke_invariant c2WitnessBars c2WitnessStroke (by with_unfolding_all decide)
  exact ⟨h.1, (h.2.2.2.2.2.1 2 (by decide) (by decide)).1,
    (h.2.2.2.2.2.1 2 (by decide) (by decide)).2⟩

/-! ## `fractal_recognition.py` — `FractalRecognizer.recognize_from_bars` -/

namespace FractalRec

/-- `Fractal(symbol, minute, fractal_type, high, low, close, idx)`. -/
structure Fractal where
  symbol : String
  minute : Nat
  fractal_type : String
  high : ℚ
  low : ℚ
  close : ℚ
  idx : Nat
  deriving Repr, DecidableEq, Inhabited

/-- Loop body of `recognize_from_bars` at index `i` (same `elif` shape as
the engine's detector, but recording the full bar row). -/
def fractal_row (bars : List Bar) (i : Nat) : Option Fractal :=
  if 1 ≤ i ∧ i + 1 < bars.length then
    let prev_bar := barAt bars (i - 1)
    let curr_bar := barAt bars i
    let next_bar := barAt bars (i + 1)
    if curr_bar.high > prev_bar.high ∧ curr_bar.high > next_bar.high then
      some { symbol := curr_bar.symbol, minute := curr_bar.minute, fractal_type := "top",
             high := curr_bar.high, low := curr_bar.low, close := curr_bar.close, idx := i }
    else if curr_bar.low < prev_bar.low ∧ curr_bar.low < next_bar.low then
      some { symbol := curr_bar.symbol, minute := curr_bar.minute, fractal_type := "bottom",
             high := curr_bar.high, low := curr_bar.low, close := curr_bar.close, idx := i }
    else none
  else none

/-- `FractalRecognizer.recognize_from_bars`: fewer than 3 bars returns `[]`,
otherwise the interior scan. -/
def recognize_from_bars (bars : List Bar) : List Fractal :=
  if bars.length < 3 then []
  else (List.range bars.length).filterMap (fractal_row bars)

end FractalRec

/-! ## `pivot_detection.py` — `PivotDetector` -/

namespace PivotDet

/-- `Pivot(symbol, pivot_id, direction, start_minute, end_minute, high, low,
bar_count)`. -/
structure Pivot where
  symbol : String
  pivot_id : Nat
  direction : String
  start_minute : Nat
  end_minute : Nat
  high : ℚ
  low : ℚ
  bar_count : Nat
  deriving Repr, DecidableEq, Inhabited

/-- `PivotDetector.check_overlap`: the `[low, high]` ranges intersect. -/
def check_overlap (bar1 bar2 : Bar) : Bool :=
  !(decide (bar1.high < bar2.low) || decide (bar2.high < bar1.low))

/-- The `for i / for j in range(i+1, ...)` double loop of
`check_all_overlap`, as a recursion over the list. -/
def all_pairs_overlap : List Bar → Bool
  | [] => true
  | b :: rest => rest.all (fun c => check_overlap b c) && all_pairs_overlap rest

/-- `PivotDetector.check_all_overlap`: `False` on fewer than 2 bars,
otherwise every pair overlaps. -/
def check_all_overlap (bars : List Bar) : Bool :=
  if bars.length < 2 then false else all_pairs_overlap bars

/-- Inner scan `for end in range(i + min_bars - 1, len(bars))` of
`detect_from_bars`, looking for the first window `bars[i:end+1]` whose
bars pairwise overlap.  `fuel ≥ len(bars)` covers the whole range. -/
def find_first_end (bars : List Bar) (i : Nat) : Nat → Nat → Option Nat
  | 0, _ => none
  | fuel + 1, e =>
    if e < bars.length then
      if check_all_overlap (seg bars i e) then some e
      else find_first_end bars i fuel (e + 1)
    else none

/-- Extension loop `for extend_end in range(end+1, len(bars))` of
`detect_from_bars`, carrying the running `last_end`, `high`, `low`. -/
def extend_window (bars : List Bar) (i : Nat) : Nat → Nat → Nat → ℚ → ℚ → Nat × ℚ × ℚ
  | 0, lastEnd, _, high, low => (lastEnd, high, low)
  | fuel + 1, lastEnd, e, high, low =>
    if e < bars.length then
      if check_all_overlap (seg bars i e) then
        extend_window bars i fuel e (e + 1)
          (max high (barAt bars e).high) (min low (barAt bars e).low)
      else (lastEnd, high, low)
    else (lastEnd, high, low)

/-- The `while i <= len(bars) - min_bars` scan of `detect_from_bars`.  On
finding a maximal window it emits a Pivot (subject to the direction
filter) and resumes from the window's end index; otherwise it advances by
one.  `fuel ≥ len(bars) + 1` covers the whole scan. -/
def pivot_loop (bars : List Bar) (min_bars : Nat) (symbol direction : String) :
    Nat → Nat → Nat → List Pivot
  | 0, _, _ => []
  | fuel + 1, pivot_id, i =>
    if i + min_bars ≤ bars.length then
      match find_first_end bars i bars.length (i + min_bars - 1) with
      | none => pivot_loop bars min_bars symbol direction fuel pivot_id (i + 1)
      | some e =>
        let seg0 := seg bars i e
        let high0 := listMax (seg0.map Bar.high)
        let low0 := listMin (seg0.map Bar.low)
        let r := extend_window bars i bars.length e (e + 1) high0 low0
        let last_end := r.1
        let piv_direction :=
          if (barAt bars i).close < (barAt bars last_end).close then "up"
          else if (barAt bars i).close > (barAt bars last_end).close then "down"
          else "none"
        if direction = "any" ∨ direction = piv_direction then
          { symbol := symbol, pivot_id := pivot_id, direction := piv_direction,
            start_minute := (barAt bars i).minute,
            end_minute := (barAt bars last_end).minute,
            high := r.2.1, low := r.2.2, bar_count := last_end - i + 1 } ::
            pivot_loop bars min_bars symbol direction fuel (pivot_id + 1) last_end
        else pivot_loop bars min_bars symbol direction fuel pivot_id last_end
    else []

/-- `PivotDetector.detect_from_bars` (with `min_bars`, `symbol`,
`direction` as parameters; the source defaults are `min_bars = 5`,
`direction = 'any'`). -/
def detect_from_bars (bars : List Bar) (min_bars : Nat) (symbol direction : String) :
    List Pivot :=
  if bars.length < min_bars then []
  else pivot_loop bars min_bars symbol direction (bars.length + 1) 1 0

end PivotDet

namespace PivotDet

theorem check_overlap_iff (b c : Bar) :
    check_overlap b c = true ↔ c.low ≤ b.high ∧ b.low ≤ c.high := by
  simp [check_overlap, not_or, not_lt]

theorem check_all_overlap_length (l : List Bar) (h : check_all_overlap l = true) :
    2 ≤ l.length := by
  unfold check_all_overlap at h
  by_cases h1 : l.length < 2
  · rw [if_pos h1] at h; cases h
  · omega

theorem all_pairs_overlap_spec (l : List Bar) (h : all_pairs_overlap l = true) :
    ∀ p q, p < q → q < l.length →
      check_overlap (l.getD p default) (l.getD q default) = true := by
  induction l with
  | nil => intro p q _ hq; simp at hq
  | cons b rest ih =>
    simp only [all_pairs_overlap, Bool.and_eq_true] at h
    obtain ⟨hall, hrest⟩ := h
    intro p q hpq hq
    match p, q with
    | 0, q + 1 =>
      simp only [List.getD_cons_zero, List.getD_cons_succ]
      have hqlen : q < rest.length := by simpa using hq
      exact (List.all_eq_true.mp hall) _ (getD_mem_of_lt rest q hqlen)
    | p + 1, q + 1 =>
      simp only [List.getD_cons_succ]
      exact ih hrest p q (by omega) (by simpa using hq)

theorem check_all_overlap_pairs (l : List Bar) (h : check_all_overlap l = true) :
    ∀ p q, p < q → q < l.length →
      check_overlap (l.getD p default) (l.getD q default) = true := by
  unfold check_all_overlap at h
  by_cases h1 : l.length < 2
  · rw [if_pos h1] at h; cases h
  · rw [if_neg h1] at h; exact all_pairs_overlap_spec l h

theorem check_all_overlap_seg (bars : List Bar) (i e : Nat)
    (h : check_all_overlap (seg bars i e) = true) :
    i + 1 ≤ e ∧ i + 1 < bars.length := by
  have hlen := check_all_overlap_length _ h
  rw [seg_length] at hlen
  have h1 := le_trans hlen (min_le_left (e + 1 - i) (bars.length - i))
  have h2 := le_trans hlen (min_le_right (e + 1 - i) (bars.length - i))
  omega

end PivotDet

theorem seg_getD (bars : List Bar) (s e m : Nat) (h : m < (seg bars s e).length) :
    (seg bars s e).getD m default = barAt bars (s + m) := by
  have h1 : m < e + 1 - s := by
    rw [seg_length] at h; exact lt_of_lt_of_le h (min_le_left _ _)
  have h2 : m < bars.length - s := by
    rw [seg_length] at h; exact lt_of_lt_of_le h (min_le_right _ _)
  rw [List.getD_eq_getElem?_getD, seg_getElem? bars s e m h1,
    List.getElem?_eq_getElem (show s + m < bars.length by omega), Option.getD_some]
  simp [barAt, List.getD_eq_getElem?_getD,
    List.getElem?_eq_getElem (show s + m < bars.length by omega)]

theorem seg_succ (bars : List Bar) (i e : Nat) (hie : i ≤ e + 1)
    (he : e + 1 < bars.length) :
    seg bars i (e + 1) = seg bars i e ++ [barAt bars (e + 1)] := by
  simp only [seg]
  have h1 : e + 1 + 1 - i = (e + 1 - i) + 1 := by omega
  rw [h1, List.take_succ]
  congr 1
  rw [List.getElem?_drop]
  have h2 : i + (e + 1 - i) = e + 1 := by omega
  rw [h2, List.getElem?_eq_getElem he]
  simp [barAt, List.getD_eq_getElem?_getD, List.getElem?_eq_getElem he]

namespace PivotDet

theorem find_first_end_some (bars : List Bar) (i : Nat) :
    ∀ fuel e0 e, find_first_end bars i fuel e0 = some e →
      e0 ≤ e ∧ e < bars.length ∧ check_all_overlap (seg bars i e) = true := by
  intro fuel
  induction fuel with
  | zero => intro e0 e h; cases h
  | succ fuel ih =>
    intro e0 e h
    simp only [find_first_end] at h
    split_ifs at h with h1 h2
    · cases h; exact ⟨le_refl _, h1, h2⟩
    · have h3 := ih (e0 + 1) e h
      exact ⟨by omega, h3.2⟩

theorem extend_window_spec (bars : List Bar) (i : Nat) :
    ∀ fuel lastEnd high low,
      lastEnd < bars.length →
      check_all_overlap (seg bars i lastEnd) = true →
      high = listMax ((seg bars i lastEnd).map Bar.high) →
      low = listMin ((seg bars i lastEnd).map Bar.low) →
      lastEnd ≤ (extend_window bars i fuel lastEnd (lastEnd + 1) high low).1 ∧
      (extend_window bars i fuel lastEnd (lastEnd + 1) high low).1 < bars.length ∧
      check_all_overlap
        (seg bars i (extend_window bars i fuel lastEnd (lastEnd + 1) high low).1) = true ∧
      (extend_window bars i fuel lastEnd (lastEnd + 1) high low).2.1 =
        listMax ((seg bars i (extend_window bars i fuel lastEnd (lastEnd + 1) high low).1).map Bar.high) ∧
      (extend_window bars i fuel lastEnd (lastEnd + 1) high low).2.2 =
        listMin ((seg bars i (extend_window bars i fuel lastEnd (lastEnd + 1) high low).1).map Bar.low) := by
  intro fuel
  induction fuel with
  | zero =>
    intro lastEnd high low hlt hov hh hl
    exact ⟨le_refl _, hlt, hov, hh, hl⟩
  | succ fuel ih =>
    intro lastEnd high low hlt hov hh hl
    simp only [extend_window]
    split_ifs with h1 h2
    · -- the window extends to lastEnd + 1
      have hbounds := check_all_overlap_seg bars i lastEnd hov
      have happ := seg_succ bars i lastEnd (by omega) h1
      have hne : (seg bars i lastEnd).map Bar.high ≠ [] := by
        have hlen2 := check_all_overlap_length _ hov
        intro hcon
        rw [List.map_eq_nil_iff] at hcon
        rw [hcon] at hlen2
        simp at hlen2
      have hne2 : (seg bars i lastEnd).map Bar.low ≠ [] := by
        have hlen2 := check_all_overlap_length _ hov
        intro hcon
        rw [List.map_eq_nil_iff] at hcon
        rw [hcon] at hlen2
        simp at hlen2
      have hh2 : max high (barAt bars (lastEnd + 1)).high =
          listMax ((seg bars i (lastEnd + 1)).map Bar.high) := by
        rw [happ, List.map_append, List.map_singleton,
          listMax_append_singleton _ _ hne, hh]
      have hl2 : min low (barAt bars (lastEnd + 1)).low =
          listMin ((seg bars i (lastEnd + 1)).map Bar.low) := by
        rw [happ, List.map_append, List.map_singleton,
          listMin_append_singleton _ _ hne2, hl]
      have hrec := ih (lastEnd + 1) (max high (barAt bars (lastEnd + 1)).high)
        (min low (barAt bars (lastEnd + 1)).low) h1 h2 hh2 hl2
      exact ⟨by omega, hrec.2.1, hrec.2.2.1, hrec.2.2.2.1, hrec.2.2.2.2⟩
    · exact ⟨le_refl _, hlt, hov, hh, hl⟩
    · exact ⟨le_refl _, hlt, hov, hh, hl⟩

end PivotDet

namespace PivotDet

theorem pivot_loop_sound (bars : List Bar) (min_bars : Nat) (symbol direction : String)
    (hmb : 1 ≤ min_bars) :
    ∀ fuel pivot_id i p, p ∈ pivot_loop bars min_bars symbol direction fuel pivot_id i →
      ∃ s e, s ≤ e ∧ e < bars.length ∧
        p.bar_count = e - s + 1 ∧ min_bars ≤ p.bar_count ∧
        p.start_minute = (barAt bars s).minute ∧
        p.end_minute = (barAt bars e).minute ∧
        check_all_overlap (seg bars s e) = true ∧
        p.high = listMax ((seg bars s e).map Bar.high) ∧
        p.low = listMin ((seg bars s e).map Bar.low) := by
  intro fuel
  induction fuel with
  | zero => intro pivot_id i p hp; simp [pivot_loop] at hp
  | succ fuel ih =>
    intro pivot_id i p hp
    simp only [pivot_loop] at hp
    split_ifs at hp with hcond
    · cases hfind : find_first_end bars i bars.length (i + min_bars - 1) with
      | none =>
        rw [hfind] at hp
        exact ih pivot_id (i + 1) p hp
      | some e =>
        rw [hfind] at hp
        simp only at hp
        obtain ⟨he0, helt, hov⟩ :=
          find_first_end_some bars i bars.length (i + min_bars - 1) e hfind
        have hbounds := check_all_overlap_seg bars i e hov
        obtain ⟨hr1, hr2, hr3, hr4, hr5⟩ := extend_window_spec bars i bars.length e
          (listMax ((seg bars i e).map Bar.high))
          (listMin ((seg bars i e).map Bar.low)) helt hov rfl rfl
        set r := extend_window bars i bars.length e (e + 1)
          (listMax ((seg bars i e).map Bar.high))
          (listMin ((seg bars i e).map Bar.low)) with hrdef
        split_ifs at hp
        all_goals
          first
          | exact ih _ _ p hp
          | (rcases List.mem_cons.mp hp with rfl | hp2
             · exact ⟨i, r.1, by omega, hr2, rfl,
                 by show min_bars ≤ r.1 - i + 1; omega, rfl, rfl, hr3, hr4, hr5⟩
             · exact ih _ _ p hp2)
    · simp at hp

end PivotDet

theorem overlap_pair_of_seg (bars : List Bar) (s e j k : Nat)
    (hov : PivotDet.check_all_overlap (seg bars s e) = true)
    (he : e < bars.length) (hj1 : s ≤ j) (hj2 : j ≤ e) (hk1 : s ≤ k) (hk2 : k ≤ e)
    (hjk : j < k) :
    (barAt bars j).high ≥ (barAt bars k).low ∧
    (barAt bars k).high ≥ (barAt bars j).low := by
  have hklen : k - s < (seg bars s e).length := by
    rw [seg_length]; exact lt_min_iff.mpr ⟨by omega, by omega⟩
  have hjlen : j - s < (seg bars s e).length := by
    rw [seg_length]; exact lt_min_iff.mpr ⟨by omega, by omega⟩
  have hco := PivotDet.check_all_overlap_pairs _ hov (j - s) (k - s) (by omega) hklen
  rw [seg_getD bars s e (j - s) hjlen, seg_getD bars s e (k - s) hklen] at hco
  have hjj : s + (j - s) = j := by omega
  have hkk : s + (k - s) = k := by omega
  rw [hjj, hkk, PivotDet.check_overlap_iff] at hco
  exact ⟨hco.1, hco.2⟩

/-- **C3.**  Every pivot returned by the bar-window detector (with
`min_bars ≥ 1`; the source default is 5) comes from a run
`[s, e]` of at least `min_bars` bars in which every two distinct bars have
overlapping `[low, high]` ranges, and whose high/low are the attained
extrema of the run. -/
theorem c3_pivot_invariant (bars : List Bar) (min_bars : Nat) (symbol direction : String)
    (hmb : 1 ≤ min_bars) :
    ∀ p ∈ PivotDet.detect_from_bars bars min_bars symbol direction,
      min_bars ≤ p.bar_count ∧
      ∃ s e, s ≤ e ∧ e < bars.length ∧
        p.bar_count = e - s + 1 ∧
        p.start_minute = (barAt bars s).minute ∧
        p.end_minute = (barAt bars e).minute ∧
        (∀ j k, s ≤ j → j ≤ e → s ≤ k → k ≤ e → j ≠ k →
          (barAt bars j).high ≥ (barAt bars k).low ∧
          (barAt bars k).high ≥ (barAt bars j).low) ∧
        (∀ j, s ≤ j → j ≤ e → (barAt bars j).high ≤ p.high ∧ p.low ≤ (barAt bars j).low) ∧
        (∃ j, s ≤ j ∧ j ≤ e ∧ (barAt bars j).high = p.high) ∧
        (∃ j, s ≤ j ∧ j ≤ e ∧ (barAt bars j).low = p.low) := by
  intro p hp
  unfold PivotDet.detect_from_bars at hp
  split_ifs at hp with hshort
  · cases hp
  · obtain ⟨s, e, hse, helt, hbc, hmbc, hsm, hem, hov, hhigh, hlow⟩ :=
      PivotDet.pivot_loop_sound bars min_bars symbol direction hmb
        (bars.length + 1) 1 0 p hp
    refine ⟨hmbc, s, e, hse, helt, hbc, hsm, hem, ?_, ?_, ?_, ?_⟩
    · intro j k hj1 hj2 hk1 hk2 hjk
      rcases Nat.lt_or_ge j k with h | h
      · exact overlap_pair_of_seg bars s e j k hov helt hj1 hj2 hk1 hk2 h
      · have hkj : k < j := by omega
        have := overlap_pair_of_seg bars s e k j hov helt hk1 hk2 hj1 hj2 hkj
        exact ⟨this.2, this.1⟩
    · intro j hj1 hj2
      have hmem := barAt_mem_seg bars s e j hj1 hj2 (by omega)
      constructor
      · rw [hhigh]; exact le_listMax _ _ (List.mem_map_of_mem Bar.high hmem)
      · rw [hlow]; exact listMin_le _ _ (List.mem_map_of_mem Bar.low hmem)
    · have hne : (seg bars s e).map Bar.high ≠ [] := by
        intro hcon
        rw [List.map_eq_nil_iff] at hcon
        have := PivotDet.check_all_overlap_length _ hov
        rw [hcon] at this
        simp at this
      obtain ⟨b, hbseg, hb⟩ := List.mem_map.mp (listMax_mem _ hne)
      obtain ⟨j, hja, hjb, _, hjc⟩ := mem_seg_exists bars s e b hbseg
      exact ⟨j, hja, hjb, by rw [hjc, hb, hhigh]⟩
    · have hne : (seg bars s e).map Bar.low ≠ [] := by
        intro hcon
        rw [List.map_eq_nil_iff] at hcon
        have := PivotDet.check_all_overlap_length _ hov
        rw [hcon] at this
        simp at this
      obtain ⟨b, hbseg, hb⟩ := List.mem_map.mp (listMin_mem _ hne)
      obtain ⟨j, hja, hjb, _, hjc⟩ := mem_seg_exists bars s e b hbseg
      exact ⟨j, hja, hjb, by rw [hjc, hb, hlow]⟩

/-- Five mutually overlapping bars: the detector returns one pivot. -/
def c3WitnessBars : List Bar :=
  [ { minute := 0, symbol := "s", open_p := 10, high := 10, low := 9, close := 9, volume := 1 },
    { minute := 1, symbol := "s", open_p := 10, high := 10, low := 9, close := 9.2, volume := 1 },
    { minute := 2, symbol := "s", open_p := 10, high := 10.1, low := 9, close := 9.4, volume := 1 },
    { minute := 3, symbol := "s", open_p := 10, high := 10, low := 9.1, close := 9.6, volume := 1 },
    { minute := 4, symbol := "s", open_p := 10, high := 10, low := 9, close := 9.8, volume := 1 } ]

/-- The pivot the detector returns on `c3WitnessBars` with the default
`min_bars = 5`. -/
def c3WitnessPivot : PivotDet.Pivot :=
  { symbol := "s", pivot_id := 1, direction := "up", start_minute := 0, end_minute := 4,
    high := 10.1, low := 9, bar_count := 5 }

/-- Witness for `c3_pivot_invariant` on a concrete bar sequence. -/
theorem c3_pivot_invariant_witness : 5 ≤ c3WitnessPivot.bar_count :=
  (c3_pivot_invariant c3WitnessBars 5 "s" "any" (by decide) c3WitnessPivot
    (by with_unfolding_all decide)).1

namespace PivotDet

theorem pivot_loop_out (bars : List Bar) (min_bars : Nat) (symbol direction : String)
    (i : Nat) (h : ¬ i + min_bars ≤ bars.length) :
    ∀ fuel pivot_id, pivot_loop bars min_bars symbol direction fuel pivot_id i = [] := by
  intro fuel pivot_id
  cases fuel with
  | zero => simp [pivot_loop]
  | succ fuel => simp [pivot_loop, h]

theorem pivot_loop_fuel_congr (bars : List Bar) (min_bars : Nat)
    (symbol direction : String) (hmb : 1 ≤ min_bars) :
    ∀ f1 f2 pivot_id i, bars.length + 1 - i ≤ f1 → bars.length + 1 - i ≤ f2 →
      pivot_loop bars min_bars symbol direction f1 pivot_id i =
      pivot_loop bars min_bars symbol direction f2 pivot_id i := by
  intro f1
  induction f1 with
  | zero =>
    intro f2 pivot_id i h1 h2
    have hout : ¬ i + min_bars ≤ bars.length := by omega
    rw [pivot_loop_out bars min_bars symbol direction i hout,
      pivot_loop_out bars min_bars symbol direction i hout]
  | succ g1 ih =>
    intro f2 pivot_id i h1 h2
    by_cases hcond : i + min_bars ≤ bars.length
    · have hf2 : ∃ g2, f2 = g2 + 1 := by
        cases f2 with
        | zero => omega
        | succ g2 => exact ⟨g2, rfl⟩
      obtain ⟨g2, rfl⟩ := hf2
      simp only [pivot_loop, if_pos hcond]
      cases hfind : find_first_end bars i bars.length (i + min_bars - 1) with
      | none =>
        simp only
        exact ih g2 pivot_id (i + 1) (by omega) (by omega)
      | some e =>
        obtain ⟨he0, helt, hov⟩ :=
          find_first_end_some bars i bars.length (i + min_bars - 1) e hfind
        have hbounds := check_all_overlap_seg bars i e hov
        obtain ⟨hr1, hr2, _, _, _⟩ := extend_window_spec bars i bars.length e
          (listMax ((seg bars i e).map Bar.high))
          (listMin ((seg bars i e).map Bar.low)) helt hov rfl rfl
        simp only
        set r := extend_window bars i bars.length e (e + 1)
          (listMax ((seg bars i e).map Bar.high))
          (listMin ((seg bars i e).map Bar.low)) with hrdef
        have hrec := ih g2 (pivot_id + 1) r.1 (by omega) (by omega)
        have hrec2 := ih g2 pivot_id r.1 (by omega) (by omega)
        split_ifs <;> simp [hrec, hrec2]
    · rw [pivot_loop_out bars min_bars symbol direction i hcond,
        pivot_loop_out bars min_bars symbol direction i hcond]

end PivotDet

/-- **C10.**  The bar-window pivot scan terminates on every finite bar
sequence for every `min_bars ≥ 1`: whenever a window is found, the scan
resumes at its end index, which strictly exceeds the current start index
(first conjunct); when none is found it advances by one (third conjunct);
hence a budget of `len(bars) + 1 - i` outer iterations — the budget
`detect_from_bars` uses — already yields the final value (second
conjunct). -/
theorem c10_pivot_scan_terminates (bars : List Bar) (min_bars : Nat)
    (symbol direction : String) (hmb : 1 ≤ min_bars) :
    (∀ i e, PivotDet.find_first_end bars i bars.length (i + min_bars - 1) = some e →
      i < (PivotDet.extend_window bars i bars.length e (e + 1)
        (listMax ((seg bars i e).map Bar.high))
        (listMin ((seg bars i e).map Bar.low))).1) ∧
    (∀ fuel pivot_id i, bars.length + 1 - i ≤ fuel →
      PivotDet.pivot_loop bars min_bars symbol direction fuel pivot_id i =
      PivotDet.pivot_loop bars min_bars symbol direction (bars.length + 1 - i) pivot_id i) ∧
    (∀ fuel pivot_id i, i + min_bars ≤ bars.length →
      PivotDet.find_first_end bars i bars.length (i + min_bars - 1) = none →
      PivotDet.pivot_loop bars min_bars symbol direction (fuel + 1) pivot_id i =
      PivotDet.pivot_loop bars min_bars symbol direction fuel pivot_id (i + 1)) := by
  refine ⟨?_, ?_, ?_⟩
  · intro i e hfind
    obtain ⟨he0, helt, hov⟩ :=
      PivotDet.find_first_end_some bars i bars.length (i + min_bars - 1) e hfind
    have hbounds := PivotDet.check_all_overlap_seg bars i e hov
    have hext := PivotDet.extend_window_spec bars i bars.length e
      (listMax ((seg bars i e).map Bar.high))
      (listMin ((seg bars i e).map Bar.low)) helt hov rfl rfl
    have := hext.1
    omega
  · intro fuel pivot_id i hfuel
    exact PivotDet.pivot_loop_fuel_congr bars min_bars symbol direction hmb
      fuel (bars.length + 1 - i) pivot_id i hfuel (le_refl _)
  · intro fuel pivot_id i hcond hfind
    simp [PivotDet.pivot_loop, hcond, hfind]

/-- Witness for `c10_pivot_scan_terminates`: on a concrete 5-bar input
a larger budget gives the same scan result as the canonical one. -/
theorem c10_pivot_scan_terminates_witness :
    PivotDet.pivot_loop c3WitnessBars 5 "s" "any" 10 1 0 =
    PivotDet.pivot_loop c3WitnessBars 5 "s" "any" (c3WitnessBars.length + 1 - 0) 1 0 :=
  (c10_pivot_scan_terminates c3WitnessBars 5 "s" "any" (by decide)).2.1 10 1 0
    (by decide)

/-! ## `chan_theory_3point_signals.py` — `ChanTheory3PointSignalGenerator` -/

namespace Signals3P

/-- `TradingSignal` (extended version), with the dataclass defaults. -/
structure TradingSignal where
  symbol : String
  signal_type : String
  point_type : String
  minute : Nat
  price : ℚ
  confidence : ℚ
  reason : String
  fractal_count : Nat := 0
  pivot_count : Nat := 0
  cycles_sync : Nat := 1
  volume_confirm : Bool := false
  deriving Repr, DecidableEq, Inhabited

/-- `self.pivot_threshold = 0.02`. -/
def pivot_threshold : ℚ := 2 / 100

/-- `self.pivot_min_bars = 5`. -/
def pivot_min_bars : Nat := 5

/-- `_is_fractal`: this module's crossing rule (it mixes highs and lows;
the spec notes in §9 that it differs from the §4.1 rule). -/
def is_fractal (bars : List Bar) (idx : Nat) : Bool × String :=
  if idx < 1 ∨ idx + 1 ≥ bars.length then (false, "")
  else
    let prev_bar := barAt bars (idx - 1)
    let curr_bar := barAt bars idx
    let next_bar := barAt bars (idx + 1)
    if prev_bar.low < curr_bar.high ∧ curr_bar.high > next_bar.high ∧
        curr_bar.low > next_bar.low then
      (true, "top")
    else if prev_bar.high > curr_bar.low ∧ curr_bar.low < next_bar.low ∧
        curr_bar.high < next_bar.high then
      (true, "bottom")
    else (false, "")

/-- `_find_fractals`: `(index, type, bar)` triples over the interior scan. -/
def find_fractals (bars : List Bar) : List (Nat × String × Bar) :=
  (List.range bars.length).filterMap fun i =>
    if 1 ≤ i ∧ i + 1 < bars.length then
      let r := is_fractal bars i
      if r.1 then some (i, r.2, barAt bars i) else none
    else none

/-- `{'high', 'low', 'bars', 'range'}` dict returned by `_find_pivot`. -/
structure PivotDict where
  high : ℚ
  low : ℚ
  bars : Nat
  range : ℚ
  deriving Repr, DecidableEq, Inhabited

/-- `_find_pivot`: the window `bars[start_idx : end_idx+1]` must span at
least `pivot_min_bars` indices and (max high − min low) must be below
`min(highs) × pivot_threshold`. -/
def find_pivot (bars : List Bar) (start_idx end_idx : Nat) : Option PivotDict :=
  if end_idx - start_idx < pivot_min_bars then none
  else
    let segment := seg bars start_idx end_idx
    if segment.isEmpty then none
    else
      let highs := segment.map Bar.high
      let lows := segment.map Bar.low
      let max_high := listMax highs
      let min_low := listMin lows
      let pivot_range := max_high - min_low
      if pivot_range < listMin highs * pivot_threshold then
        some { high := max_high, low := min_low, bars := segment.length,
               range := pivot_range }
      else none

/-- Loop body of `_identify_first_buy_point` at fractal position `i`
(`idx3 and type3 == "top"` is falsy when the third triple is missing or
its bar index is 0). -/
def first_buy_body (fractals : List (Nat × String × Bar)) (i : Nat) :
    List TradingSignal :=
  let p1 := fractals.getD (i - 1) default
  let p2 := fractals.getD i default
  let o3 : Option (Nat × String × Bar) :=
    if i + 1 < fractals.length then some (fractals.getD (i + 1) default) else none
  if p1.2.1 = "top" ∧ p2.2.1 = "bottom" then
    match o3 with
    | some (idx3, type3, _) =>
      if idx3 ≠ 0 ∧ type3 = "top" then
        [{ symbol := p2.2.2.symbol, signal_type := "buy", point_type := "1st",
           minute := p2.2.2.minute, price := p2.2.2.low, confidence := 0.75,
           reason := "down segment complete, bottom fractal turning up",
           fractal_count := fractals.length, pivot_count := 0 }]
      else if i = fractals.length - 1 then
        [{ symbol := p2.2.2.symbol, signal_type := "buy", point_type := "1st",
           minute := p2.2.2.minute, price := p2.2.2.low, confidence := 0.6,
           reason := "latest bottom fractal, awaiting upturn",
           fractal_count := fractals.length }]
      else []
    | none =>
      if i = fractals.length - 1 then
        [{ symbol := p2.2.2.symbol, signal_type := "buy", point_type := "1st",
           minute := p2.2.2.minute, price := p2.2.2.low, confidence := 0.6,
           reason := "latest bottom fractal, awaiting upturn",
           fractal_count := fractals.length }]
      else []
  else []

/-- The scan `for i in range(len(fractals) - 2, 0, -1)` of
`_identify_first_buy_point` (descending, stopping before 0). -/
def first_buy_loop (fractals : List (Nat × String × Bar)) : Nat → List TradingSignal
  | 0 => []
  | i + 1 => first_buy_body fractals (i + 1) ++ first_buy_loop fractals i

/-- `_identify_first_buy_point`. -/
def identify_first_buy_point (bars : List Bar)
    (fractals : List (Nat × String × Bar)) : List TradingSignal :=
  if fractals.length < 2 then []
  else first_buy_loop fractals (fractals.length - 2)

/-- The pivot search `for i in range(len(bars) - pivot_min_bars,
max(0, len(bars) - 50), -1)` of `_identify_second_buy_point`, stopping at
the first hit. -/
def search_pivot (bars : List Bar) (lo : Nat) : Nat → Option PivotDict
  | 0 => none
  | i + 1 =>
    if i + 1 ≤ lo then none
    else
      match find_pivot bars (i + 1) (bars.length - 1) with
      | some p => some p
      | none => search_pivot bars lo i

/-- `_identify_second_buy_point`: needs ≥ 20 bars, a recent pivot, a
bounce off the pivot's lower band and a breakout above its upper edge. -/
def identify_second_buy_point (bars : List Bar) : List TradingSignal :=
  if bars.length < 20 then []
  else
    match search_pivot bars (bars.length - 50) (bars.length - pivot_min_bars) with
    | none => []
    | some pivot =>
      let current := barAt bars (bars.length - 1)
      if current.low ≤ pivot.low * (1 + pivot_threshold) ∧
          current.close > pivot.low * (1 + pivot_threshold) then
        if current.high > pivot.high then
          [{ symbol := current.symbol, signal_type := "buy", point_type := "2nd",
             minute := current.minute, price := pivot.high, confidence := 0.7,
             reason := "pivot oscillation breakout", pivot_count := 1,
             volume_confirm := decide (0 < current.volume) }]
        else []
      else []

/-- Body of the first-sell scan inlined in `analyze_bars` at fractal
position `i` (pattern bottom → top → bottom). -/
def first_sell_body (fractals : List (Nat × String × Bar)) (symbol : String)
    (i : Nat) : Option TradingSignal :=
  let p1 := fractals.getD (i - 1) default
  let p2 := fractals.getD i default
  let o3 : Option (Nat × String × Bar) :=
    if i + 1 < fractals.length then some (fractals.getD (i + 1) default) else none
  if p1.2.1 = "bottom" ∧ p2.2.1 = "top" then
    match o3 with
    | some (idx3, type3, _) =>
      if idx3 ≠ 0 ∧ type3 = "bottom" then
        some { symbol := symbol, signal_type := "sell", point_type := "1st",
               minute := p2.2.2.minute, price := p2.2.2.high, confidence := 0.75,
               reason := "up segment complete, top fractal turning down",
               fractal_count := fractals.length }
      else none
    | none => none
  else none

/-- `analyze_bars`: fewer than 5 bars returns `[]`; otherwise the symbol
field is written into every bar record (`bar['symbol'] = symbol` mutates
the caller's bars) and the three scans run on the mutated list.  The
first component of the result is the bar list as it stands after the
call, the second the signal list. -/
def analyze_bars (bars : List Bar) (symbol : String) :
    List Bar × List TradingSignal :=
  if bars.length < 5 then (bars, [])
  else
    let bars2 := bars.map fun b => { b with symbol := symbol }
    let fractals := find_fractals bars2
    let sigs1 := identify_first_buy_point bars2 fractals
    let sigs2 := identify_second_buy_point bars2
    let sell_sigs := (List.range (fractals.length - 1)).filterMap fun i =>
      if 1 ≤ i then first_sell_body fractals symbol i else none
    (bars2, sigs1 ++ sigs2 ++ sell_sigs)

end Signals3P

/-- Bars whose fractal list (under this module's rule) is exactly
`[top, bottom]` with the bottom the most recent fractal and no third
fractal after it — the configuration for which the spec prescribes a
pending `buy/1st` signal of confidence 0.60. -/
def c4FailingBars : List Bar :=
  [ { minute := 0, symbol := "s", open_p := 9, high := 10, low := 9, close := 9.5, volume := 1 },
    { minute := 1, symbol := "s", open_p := 11, high := 12, low := 11, close := 11.5, volume := 1 },
    { minute := 2, symbol := "s", open_p := 9, high := 11, low := 8, close := 9, volume := 1 },
    { minute := 3, symbol := "s", open_p := 10, high := 13, low := 9, close := 10, volume := 1 },
    { minute := 4, symbol := "s", open_p := 10, high := 14, low := 8.7, close := 10, volume := 1 } ]

/-- **C4** (code defect).  On `c4FailingBars` the fractal list is a top
followed by a most-recent bottom with no confirming third fractal, yet
`_identify_first_buy_point` emits nothing: its scan starts at the
second-to-last fractal, so the `i == len(fractals) - 1` pending branch
(confidence 0.60) is unreachable. -/
theorem c4_pending_buy_never_emitted :
    (Signals3P.find_fractals c4FailingBars).map (fun f => f.2.1) = ["top", "bottom"] ∧
    Signals3P.identify_first_buy_point c4FailingBars
      (Signals3P.find_fractals c4FailingBars) = [] := by
  with_unfolding_all decide

namespace Signals3P

theorem search_pivot_some (bars : List Bar) (lo : Nat) :
    ∀ i p, search_pivot bars lo i = some p →
      ∃ j, find_pivot bars j (bars.length - 1) = some p := by
  intro i
  induction i with
  | zero => intro p h; cases h
  | succ i ih =>
    intro p h
    simp only [search_pivot] at h
    split_ifs at h with h1
    cases hfp : find_pivot bars (i + 1) (bars.length - 1) with
    | some q => rw [hfp] at h; cases h; exact ⟨i + 1, hfp⟩
    | none => rw [hfp] at h; exact ih p h

theorem find_pivot_some_high (bars : List Bar) (s e : Nat) (p : PivotDict)
    (h : find_pivot bars s e = some p) :
    pivot_min_bars ≤ e - s ∧ ¬ (seg bars s e).isEmpty ∧
    p.high = listMax ((seg bars s e).map Bar.high) := by
  simp only [find_pivot] at h
  split_ifs at h with h1 h2 h3
  · cases h
    exact ⟨by omega, h2, rfl⟩

/-- **C5** (code defect).  The 2nd-type buy classifier never emits a
signal on any input: the pivot window found by `_find_pivot` always ends
at the most recent bar, so its `high` is at least that bar's high and
the breakout test `bar.high > pivot.high` is unsatisfiable. -/
theorem c5_second_buy_never_emitted (bars : List Bar) :
    Signals3P.identify_second_buy_point bars = [] := by
  unfold Signals3P.identify_second_buy_point
  split_ifs with h20
  · rfl
  · cases hsp : search_pivot bars (bars.length - 50) (bars.length - pivot_min_bars) with
    | none => rfl
    | some p =>
      obtain ⟨j, hjp⟩ := search_pivot_some bars (bars.length - 50) _ p hsp
      obtain ⟨hmin, hne, hhigh⟩ := find_pivot_some_high bars j (bars.length - 1) p hjp
      have hlen6 : j + pivot_min_bars ≤ bars.length - 1 := by
        unfold pivot_min_bars at *
        omega
      have hlenpos : 1 ≤ bars.length := by
        unfold pivot_min_bars at hlen6
        omega
      have hmem := barAt_mem_seg bars j (bars.length - 1) (bars.length - 1)
        (by omega) (le_refl _) (by omega)
      have hlast : (barAt bars (bars.length - 1)).high ≤ p.high := by
        rw [hhigh]
        exact le_listMax _ _ (List.mem_map_of_mem Bar.high hmem)
      simp only
      split_ifs with hbounce hbreak
      · exact absurd hbreak (not_lt.mpr hlast)
      · rfl
      · rfl

end Signals3P

/-- Five bars carrying symbol "A". -/
def c8Bars : List Bar :=
  [ { minute := 0, symbol := "A", open_p := 1, high := 2, low := 1, close := 1, volume := 1 },
    { minute := 1, symbol := "A", open_p := 1, high := 2, low := 1, close := 1, volume := 1 },
    { minute := 2, symbol := "A", open_p := 1, high := 2, low := 1, close := 1, volume := 1 },
    { minute := 3, symbol := "A", open_p := 1, high := 2, low := 1, close := 1, volume := 1 },
    { minute := 4, symbol := "A", open_p := 1, high := 2, low := 1, close := 1, volume := 1 } ]

/-- **C8** counterexample: `analyze_bars` is not mutation-free — called
with a different symbol, the bar list after the call differs from the
input (`bar['symbol'] = symbol` is written into every bar record). -/
theorem c8_analyze_bars_mutates :
    (Signals3P.analyze_bars c8Bars "B").1 ≠ c8Bars := by
  with_unfolding_all decide

/-- **C8** (amended).  The only mutation `analyze_bars` performs is
writing the given symbol into each bar's `symbol` field (and only when
the 5-bar minimum is met): every other field, the list length, and — when
the bars already carry that symbol — the whole list are unchanged, and
the signals are freshly constructed records. -/
theorem c8_analyze_bars_frame (bars : List Bar) (symbol : String) :
    ((Signals3P.analyze_bars bars symbol).1 =
      if bars.length < 5 then bars
      else bars.map fun b => { b with symbol := symbol }) ∧
    ((Signals3P.analyze_bars bars symbol).1).map (fun b => { b with symbol := "" }) =
      bars.map (fun b => { b with symbol := "" }) ∧
    (Signals3P.analyze_bars bars symbol).1.length = bars.length ∧
    ((∀ b ∈ bars, b.symbol = symbol) →
      (Signals3P.analyze_bars bars symbol).1 = bars) := by
  have hmapid : (∀ b ∈ bars, b.symbol = symbol) →
      bars.map (fun b => { b with symbol := symbol }) = bars := by
    intro h
    have : bars.map (fun b => { b with symbol := symbol }) = bars.map id := by
      refine List.map_congr_left ?_
      intro b hb
      rw [← h b hb]
      rfl
    rw [this, List.map_id]
  unfold Signals3P.analyze_bars
  split_ifs with h5
  · exact ⟨rfl, rfl, rfl, fun _ => rfl⟩
  · refine ⟨rfl, ?_, by simp, fun h => hmapid h⟩
    simp only [List.map_map]
    rfl

/-- Witness for `c8_analyze_bars_frame`: when the bars already carry the
given symbol, the list is returned unchanged. -/
theorem c8_analyze_bars_frame_witness :
    (Signals3P.analyze_bars c8Bars "A").1 = c8Bars :=
  (c8_analyze_bars_frame c8Bars "A").2.2.2 (by decide)

/-- **C9.**  Input shorter than each detector's minimum length is a
defined no-signal outcome: the fractal recognizer returns `[]` below 3
bars, the bar-window pivot detector returns `[]` below `min_bars` bars,
and the signal classifier returns `[]` (and leaves the bars untouched)
below 5 bars.  All three embeddings are total functions, so no run
raises an exception. -/
theorem c9_short_input_no_signal (bars : List Bar) (min_bars : Nat)
    (symbol direction symbol2 : String) :
    (bars.length < 3 → FractalRec.recognize_from_bars bars = []) ∧
    (bars.length < min_bars →
      PivotDet.detect_from_bars bars min_bars symbol direction = []) ∧
    (bars.length < 5 → Signals3P.analyze_bars bars symbol2 = (bars, [])) := by
  refine ⟨?_, ?_, ?_⟩ <;> intro h
  · simp [FractalRec.recognize_from_bars, h]
  · simp [PivotDet.detect_from_bars, h]
  · simp [Signals3P.analyze_bars, h]

/-- Witness for `c9_short_input_no_signal` on concrete short inputs. -/
theorem c9_short_input_no_signal_witness :
    FractalRec.recognize_from_bars (c8Bars.take 2) = [] ∧
    PivotDet.detect_from_bars (c8Bars.take 2) 5 "s" "any" = [] ∧
    Signals3P.analyze_bars (c8Bars.take 2) "s" = (c8Bars.take 2, []) :=
  ⟨(c9_short_input_no_signal (c8Bars.take 2) 5 "s" "any" "s").1 (by decide),
   (c9_short_input_no_signal (c8Bars.take 2) 5 "s" "any" "s").2.1 (by decide),
   (c9_short_input_no_signal (c8Bars.take 2) 5 "s" "any" "s").2.2 (by decide)⟩

/-! ## `interval_analysis.py` — `IntervalAnalyzer` -/

namespace Interval

/-- `IntervalAnalysis` result record. -/
structure IntervalAnalysis where
  symbol : String
  minute : Nat
  fastcycle_signal : String
  midcycle_signal : String
  slowcycle_signal : String
  fast_price : ℚ
  mid_price : ℚ
  slow_price : ℚ
  pivot_high : ℚ
  pivot_low : ℚ
  strength : ℚ
  analysis : String
  deriving Repr, DecidableEq, Inhabited

/-- `IntervalAnalysis.is_synchronized`: drop the `'none'` entries; empty
means not synchronized, otherwise all remaining entries must equal the
first. -/
def is_synchronized (a : IntervalAnalysis) : Bool :=
  let signals := [a.fastcycle_signal, a.midcycle_signal, a.slowcycle_signal].filter
    (fun s => s != "none")
  if signals.isEmpty then false
  else signals.all (fun s => s == signals.headD "")

/-- `get_pivot_bounds`: `(max(highs), min(lows))`, or `(None, None)` on an
empty list. -/
def get_pivot_bounds (bars : List Bar) : Option ℚ × Option ℚ :=
  if bars.isEmpty then (none, none)
  else (some (listMax (bars.map Bar.high)), some (listMin (bars.map Bar.low)))

/-- `detect_breakout`: thresholds are taken relative to the band height
`pivot_high - pivot_low`. -/
def detect_breakout (bars : List Bar) (pivot_high pivot_low threshold : ℚ) :
    String × Option ℚ :=
  if bars.isEmpty then ("none", none)
  else
    let latest := barAt bars (bars.length - 1)
    let current_price := latest.close
    let pivot_height := pivot_high - pivot_low
    let breakout_threshold_up := pivot_high + pivot_height * threshold
    let breakout_threshold_down := pivot_low - pivot_height * threshold
    if current_price > breakout_threshold_up then ("buy", some current_price)
    else if current_price < breakout_threshold_down then ("sell", some current_price)
    else ("none", none)

/-- The grouping loop of `aggregate_bars`: each output bar merges the next
`timeframe_minutes` input bars (open = first open, high = max, low = min,
close = last close, volume = Σ; the timestamp of the first bar; the
source's aggregated dict carries no symbol key — the first bar's symbol
is kept here).  `fuel ≥ len(bars)` covers the whole list. -/
def aggregate_loop (tf : Nat) : Nat → List Bar → List Bar
  | 0, _ => []
  | _, [] => []
  | fuel + 1, b :: rest =>
    let segment_rest := rest.take (tf - 1)
    { minute := b.minute, symbol := b.symbol, open_p := b.open_p,
      high := listMax ((b :: segment_rest).map Bar.high),
      low := listMin ((b :: segment_rest).map Bar.low),
      close := (segment_rest.getLastD b).close,
      volume := ((b :: segment_rest).map Bar.volume).sum } ::
      aggregate_loop tf fuel (rest.drop (tf - 1))

/-- `aggregate_bars`: identity on empty input or `timeframe_minutes ≤ 1`. -/
def aggregate_bars (bars : List Bar) (timeframe_minutes : Nat) : List Bar :=
  if bars.isEmpty ∨ timeframe_minutes ≤ 1 then bars
  else aggregate_loop timeframe_minutes bars.length bars

/-- `bars[-15:]` — the fast window of `analyze_multilevel`. -/
def fast_window (bars : List Bar) : List Bar := lastN bars 15

/-- `aggregate_bars(bars[-60:], 5)[-12:]` — the mid window. -/
def mid_window (bars : List Bar) : List Bar :=
  lastN (aggregate_bars (lastN bars 60) 5) 12

/-- `aggregate_bars(bars[-240:], 60)[-4:]` — the slow window. -/
def slow_window (bars : List Bar) : List Bar :=
  lastN (aggregate_bars (lastN bars 240) 60) 4

/-- Band upper edge of a window (`max(highs)`). -/
def band_high (w : List Bar) : ℚ := listMax (w.map Bar.high)

/-- Band lower edge of a window (`min(lows)`). -/
def band_low (w : List Bar) : ℚ := listMin (w.map Bar.low)

/-- Close of the last bar of a window (`w[-1]['close']`). -/
def last_close (w : List Bar) : ℚ := (barAt w (w.length - 1)).close

/-- The strength block of `analyze_multilevel`: base 0.3; +0.2 if the
fast signal fired, +0.25 each for mid and slow; +0.2 capped at 1.0 when
all three fired with the same signal. -/
def strength_score (fast_signal mid_signal slow_signal : String) : ℚ :=
  let s0 : ℚ := 0.3
  let s1 := if fast_signal ≠ "none" then s0 + 0.2 else s0
  let s2 := if mid_signal ≠ "none" then s1 + 0.25 else s1
  let s3 := if slow_signal ≠ "none" then s2 + 0.25 else s2
  if fast_signal = mid_signal ∧ mid_signal = slow_signal ∧ fast_signal ≠ "none" then
    min 1 (s3 + 0.2)
  else s3

/-- `_generate_analysis_text` (branch structure of the source; the exact
wording is cosmetic and not part of the contract). -/
def generate_analysis_text (fast_sig mid_sig slow_sig : String) : String :=
  if fast_sig = mid_sig ∧ mid_sig = slow_sig ∧ fast_sig = "buy" then
    "all-cycle sync buy"
  else if fast_sig = mid_sig ∧ mid_sig = slow_sig ∧ fast_sig = "sell" then
    "all-cycle sync sell"
  else if fast_sig = mid_sig ∧ mid_sig = slow_sig then "sync neutral"
  else
    let buy_count := ([fast_sig, mid_sig, slow_sig].filter (fun s => s == "buy")).length
    let sell_count := ([fast_sig, mid_sig, slow_sig].filter (fun s => s == "sell")).length
    if buy_count > sell_count then "bullish bias"
    else if sell_count > buy_count then "bearish bias"
    else "mixed signals"

/-- Python `x or fallback` on a float-or-None: `None` and `0.0` both fall
back. -/
def price_or (o : Option ℚ) (fallback : ℚ) : ℚ :=
  match o with
  | none => fallback
  | some q => if q = 0 then fallback else q

/-- `IntervalAnalyzer.analyze_multilevel`: needs ≥ 30 bars; derives the
three windows, their bands and breakout signals (thresholds 0.01, 0.005,
0.002), and assembles the `IntervalAnalysis` record. -/
def analyze_multilevel (bars : List Bar) (symbol : String) :
    Option IntervalAnalysis :=
  if bars.length < 30 then none
  else
    let fast_bars := fast_window bars
    let mid_bars := mid_window bars
    let slow_bars := slow_window bars
    if fast_bars.isEmpty ∨ mid_bars.isEmpty ∨ slow_bars.isEmpty then none
    else
      match get_pivot_bounds fast_bars, get_pivot_bounds mid_bars,
          get_pivot_bounds slow_bars with
      | (some fast_high, some fast_low), (some mid_high, some mid_low),
          (some slow_high, some slow_low) =>
        let fr := detect_breakout fast_bars fast_high fast_low 0.01
        let mr := detect_breakout mid_bars mid_high mid_low 0.005
        let sr := detect_breakout slow_bars slow_high slow_low 0.002
        some { symbol := symbol,
               minute := (barAt bars (bars.length - 1)).minute,
               fastcycle_signal := fr.1, midcycle_signal := mr.1,
               slowcycle_signal := sr.1,
               fast_price := price_or fr.2 (barAt bars (bars.length - 1)).close,
               mid_price := price_or mr.2 (last_close mid_bars),
               slow_price := price_or sr.2 (last_close slow_bars),
               pivot_high := (fast_high + mid_high + slow_high) / 3,
               pivot_low := (fast_low + mid_low + slow_low) / 3,
               strength := strength_score fr.1 mr.1 sr.1,
               analysis := generate_analysis_text fr.1 mr.1 sr.1 }
      | _, _, _ => none

end Interval

namespace Interval

theorem get_pivot_bounds_eq (l : List Bar) (h : ¬ l.isEmpty) :
    get_pivot_bounds l = (some (band_high l), some (band_low l)) := by
  simp [get_pivot_bounds, h, band_high, band_low]

set_option maxRecDepth 8000 in
theorem analyze_multilevel_fields (bars : List Bar) (symbol : String)
    (a : IntervalAnalysis) (h : analyze_multilevel bars symbol = some a) :
    ¬ (fast_window bars).isEmpty ∧ ¬ (mid_window bars).isEmpty ∧
    ¬ (slow_window bars).isEmpty ∧
    a.fastcycle_signal = (detect_breakout (fast_window bars)
      (band_high (fast_window bars)) (band_low (fast_window bars)) 0.01).1 ∧
    a.midcycle_signal = (detect_breakout (mid_window bars)
      (band_high (mid_window bars)) (band_low (mid_window bars)) 0.005).1 ∧
    a.slowcycle_signal = (detect_breakout (slow_window bars)
      (band_high (slow_window bars)) (band_low (slow_window bars)) 0.002).1 ∧
    a.strength = strength_score a.fastcycle_signal a.midcycle_signal a.slowcycle_signal := by
  simp only [analyze_multilevel] at h
  split_ifs at h with h30 hemp
  have hf : ¬ (fast_window bars).isEmpty := by
    intro hc; exact hemp (Or.inl hc)
  have hm : ¬ (mid_window bars).isEmpty := by
    intro hc; exact hemp (Or.inr (Or.inl hc))
  have hs : ¬ (slow_window bars).isEmpty := by
    intro hc; exact hemp (Or.inr (Or.inr hc))
  rw [get_pivot_bounds_eq _ hf, get_pivot_bounds_eq _ hm, get_pivot_bounds_eq _ hs] at h
  obtain rfl := (Option.some.inj h).symm
  exact ⟨hf, hm, hs, rfl, rfl, rfl, rfl⟩

theorem detect_breakout_iff (w : List Bar) (ph pl t : ℚ) (hne : ¬ w.isEmpty) :
    ((detect_breakout w ph pl t).1 = "buy" ↔ last_close w > ph + (ph - pl) * t) ∧
    ((detect_breakout w ph pl t).1 = "sell" ↔
      (¬ last_close w > ph + (ph - pl) * t ∧ last_close w < pl - (ph - pl) * t)) ∧
    ((detect_breakout w ph pl t).1 = "none" ↔
      (¬ last_close w > ph + (ph - pl) * t ∧ ¬ last_close w < pl - (ph - pl) * t)) := by
  simp only [detect_breakout, last_close]
  rw [if_neg hne]
  split_ifs with h1 h2 <;> simp_all

theorem strength_score_bounds (f m s : String) :
    0 ≤ strength_score f m s ∧ strength_score f m s ≤ 1 := by
  unfold strength_score
  split_ifs <;> constructor <;>
    first
      | exact le_min (by norm_num) (by norm_num)
      | exact min_le_left _ _
      | norm_num

/-- The strength score as the claim words it: base 0.3, plus 0.2 / 0.25 /
0.25 for a firing fast / mid / slow signal, plus a synchronization bonus
of 0.2 capped at 1.0 when all three are equal and non-`none` (definition
written from the spec's words, to be compared with the code's
`strength_score`). -/
def spec_strength_score (fast mid slow : String) : ℚ :=
  let base := 0.3 + (if fast ≠ "none" then (0.2 : ℚ) else 0) +
    (if mid ≠ "none" then (0.25 : ℚ) else 0) +
    (if slow ≠ "none" then (0.25 : ℚ) else 0)
  if fast = mid ∧ mid = slow ∧ fast ≠ "none" then min 1 (base + 0.2) else base

theorem strength_score_eq_spec (f m s : String) :
    strength_score f m s = spec_strength_score f m s := by
  unfold strength_score spec_strength_score
  split_ifs <;> norm_num

theorem is_synchronized_iff (a : IntervalAnalysis) :
    is_synchronized a = true ↔
      ((a.fastcycle_signal ≠ "none" ∨ a.midcycle_signal ≠ "none" ∨
          a.slowcycle_signal ≠ "none") ∧
       (a.fastcycle_signal ≠ "none" → a.midcycle_signal ≠ "none" →
          a.fastcycle_signal = a.midcycle_signal) ∧
       (a.fastcycle_signal ≠ "none" → a.slowcycle_signal ≠ "none" →
          a.fastcycle_signal = a.slowcycle_signal) ∧
       (a.midcycle_signal ≠ "none" → a.slowcycle_signal ≠ "none" →
          a.midcycle_signal = a.slowcycle_signal)) := by
  unfold is_synchronized
  by_cases hf : a.fastcycle_signal = "none" <;>
    by_cases hm : a.midcycle_signal = "none" <;>
      by_cases hs : a.slowcycle_signal = "none" <;>
        simp only [hf, hm, hs, List.filter_cons, List.filter_nil, bne_iff_ne,
          ne_eq, not_true_eq_false, not_false_eq_true, if_true, if_false,
          ite_true, ite_false, List.isEmpty_nil, List.isEmpty_cons,
          List.all_cons, List.all_nil, List.headD_cons, beq_iff_eq,
          Bool.and_true, Bool.and_eq_true, decide_eq_true_eq,
          if_pos, not_false_iff] <;>
        simp_all
  all_goals constructor
  all_goals
    first
    | (rintro ⟨h1, h2⟩; exact ⟨h1.symm, h2.symm, h1.trans h2.symm⟩)
    | (rintro ⟨h1, h2, h3⟩; exact ⟨h1.symm, h2.symm⟩)
    | (intro h1; exact h1.symm)

end Interval

/-- **C7.**  For every accepted input the emitted strength lies in [0,1]
and equals the documented score (base 0.3, +0.2 fast, +0.25 mid, +0.25
slow, +0.2 synchronization bonus capped at 1.0), and `is_synchronized`
holds iff all non-`none` signals agree and at least one is non-`none`. -/
theorem c7_strength_and_sync (bars : List Bar) (symbol : String)
    (a : Interval.IntervalAnalysis)
    (h : Interval.analyze_multilevel bars symbol = some a) :
    0 ≤ a.strength ∧ a.strength ≤ 1 ∧
    a.strength = Interval.spec_strength_score a.fastcycle_signal a.midcycle_signal
      a.slowcycle_signal ∧
    (Interval.is_synchronized a = true ↔
      ((a.fastcycle_signal ≠ "none" ∨ a.midcycle_signal ≠ "none" ∨
          a.slowcycle_signal ≠ "none") ∧
       (a.fastcycle_signal ≠ "none" → a.midcycle_signal ≠ "none" →
          a.fastcycle_signal = a.midcycle_signal) ∧
       (a.fastcycle_signal ≠ "none" → a.slowcycle_signal ≠ "none" →
          a.fastcycle_signal = a.slowcycle_signal) ∧
       (a.midcycle_signal ≠ "none" → a.slowcycle_signal ≠ "none" →
          a.midcycle_signal = a.slowcycle_signal))) := by
  obtain ⟨_, _, _, _, _, _, hstr⟩ :=
    Interval.analyze_multilevel_fields bars symbol a h
  refine ⟨?_, ?_, ?_, Interval.is_synchronized_iff a⟩
  · rw [hstr]; exact (Interval.strength_score_bounds _ _ _).1
  · rw [hstr]; exact (Interval.strength_score_bounds _ _ _).2
  · rw [hstr, Interval.strength_score_eq_spec]

/-- Thirty flat bars (all prices equal): every window signal is `none`. -/
def c7Bars : List Bar :=
  List.replicate 30
    { minute := 0, symbol := "s", open_p := 10, high := 10, low := 10,
      close := 10, volume := 1 }

set_option maxRecDepth 100000 in
/-- Witness for `c7_strength_and_sync` on a concrete 30-bar input. -/
theorem c7_strength_and_sync_witness :
    0 ≤ ((Interval.analyze_multilevel c7Bars "s").getD default).strength ∧
    ((Interval.analyze_multilevel c7Bars "s").getD default).strength ≤ 1 := by
  have h : Interval.analyze_multilevel c7Bars "s" =
      some ((Interval.analyze_multilevel c7Bars "s").getD default) := by
    with_unfolding_all decide
  exact ⟨(c7_strength_and_sync c7Bars "s" _ h).1,
    (c7_strength_and_sync c7Bars "s" _ h).2.1⟩

/-- **C6** (amended).  For each of the fast/mid/slow windows the
synchronizer computes the band (max high, min low) and emits `buy` iff
the window's last close exceeds `bandHigh + (bandHigh - bandLow) ×
threshold`, `sell` iff it does not and the last close is below
`bandLow - (bandHigh - bandLow) × threshold`, else `none` — the
thresholds (fast 0.01, mid 0.005, slow 0.002) scale the band height, not
the band bound itself. -/
theorem c6_breakout_rule_amended (bars : List Bar) (symbol : String)
    (a : Interval.IntervalAnalysis)
    (h : Interval.analyze_multilevel bars symbol = some a) :
    ((a.fastcycle_signal = "buy" ↔
        Interval.last_close (Interval.fast_window bars) >
          Interval.band_high (Interval.fast_window bars) +
          (Interval.band_high (Interval.fast_window bars) -
            Interval.band_low (Interval.fast_window bars)) * 0.01) ∧
     (a.fastcycle_signal = "sell" ↔
        (¬ Interval.last_close (Interval.fast_window bars) >
            Interval.band_high (Interval.fast_window bars) +
            (Interval.band_high (Interval.fast_window bars) -
              Interval.band_low (Interval.fast_window bars)) * 0.01 ∧
          Interval.last_close (Interval.fast_window bars) <
            Interval.band_low (Interval.fast_window bars) -
            (Interval.band_high (Interval.fast_window bars) -
              Interval.band_low (Interval.fast_window bars)) * 0.01)) ∧
     (a.fastcycle_signal = "none" ↔
        (¬ Interval.last_close (Interval.fast_window bars) >
            Interval.band_high (Interval.fast_window bars) +
            (Interval.band_high (Interval.fast_window bars) -
              Interval.band_low (Interval.fast_window bars)) * 0.01 ∧
          ¬ Interval.last_close (Interval.fast_window bars) <
            Interval.band_low (Interval.fast_window bars) -
            (Interval.band_high (Interval.fast_window bars) -
              Interval.band_low (Interval.fast_window bars)) * 0.01))) ∧
    ((a.midcycle_signal = "buy" ↔
        Interval.last_close (Interval.mid_window bars) >
          Interval.band_high (Interval.mid_window bars) +
          (Interval.band_high (Interval.mid_window bars) -
            Interval.band_low (Interval.mid_window bars)) * 0.005) ∧
     (a.midcycle_signal = "sell" ↔
        (¬ Interval.last_close (Interval.mid_window bars) >
            Interval.band_high (Interval.mid_window bars) +
            (Interval.band_high (Interval.mid_window bars) -
              Interval.band_low (Interval.mid_window bars)) * 0.005 ∧
          Interval.last_close (Interval.mid_window bars) <
            Interval.band_low (Interval.mid_window bars) -
            (Interval.band_high (Interval.mid_window bars) -
              Interval.band_low (Interval.mid_window bars)) * 0.005)) ∧
     (a.midcycle_signal = "none" ↔
        (¬ Interval.last_close (Interval.mid_window bars) >
            Interval.band_high (Interval.mid_window bars) +
            (Interval.band_high (Interval.mid_window bars) -
              Interval.band_low (Interval.mid_window bars)) * 0.005 ∧
          ¬ Interval.last_close (Interval.mid_window bars) <
            Interval.band_low (Interval.mid_window bars) -
            (Interval.band_high (Interval.mid_window bars) -
              Interval.band_low (Interval.mid_window bars)) * 0.005))) ∧
    ((a.slowcycle_signal = "buy" ↔
        Interval.last_close (Interval.slow_window bars) >
          Interval.band_high (Interval.slow_window bars) +
          (Interval.band_high (Interval.slow_window bars) -
            Interval.band_low (Interval.slow_window bars)) * 0.002) ∧
     (a.slowcycle_signal = "sell" ↔
        (¬ Interval.last_close (Interval.slow_window bars) >
            Interval.band_high (Interval.slow_window bars) +
            (Interval.band_high (Interval.slow_window bars) -
              Interval.band_low (Interval.slow_window bars)) * 0.002 ∧
          Interval.last_close (Interval.slow_window bars) <
            Interval.band_low (Interval.slow_window bars) -
            (Interval.band_high (Interval.slow_window bars) -
              Interval.band_low (Interval.slow_window bars)) * 0.002)) ∧
     (a.slowcycle_signal = "none" ↔
        (¬ Interval.last_close (Interval.slow_window bars) >
            Interval.band_high (Interval.slow_window bars) +
            (Interval.band_high (Interval.slow_window bars) -
              Interval.band_low (Interval.slow_window bars)) * 0.002 ∧
          ¬ Interval.last_close (Interval.slow_window bars) <
            Interval.band_low (Interval.slow_window bars) -
            (Interval.band_high (Interval.slow_window bars) -
              Interval.band_low (Interval.slow_window bars)) * 0.002))) := by
  obtain ⟨hfne, hmne, hsne, hfs, hms, hss, _⟩ :=
    Interval.analyze_multilevel_fields bars symbol a h
  have hf := Interval.detect_breakout_iff (Interval.fast_window bars)
    (Interval.band_high (Interval.fast_window bars))
    (Interval.band_low (Interval.fast_window bars)) 0.01 hfne
  have hm := Interval.detect_breakout_iff (Interval.mid_window bars)
    (Interval.band_high (Interval.mid_window bars))
    (Interval.band_low (Interval.mid_window bars)) 0.005 hmne
  have hs := Interval.detect_breakout_iff (Interval.slow_window bars)
    (Interval.band_high (Interval.slow_window bars))
    (Interval.band_low (Interval.slow_window bars)) 0.002 hsne
  rw [hfs, hms, hss]
  exact ⟨⟨hf.1, hf.2.1, hf.2.2⟩, ⟨hm.1, hm.2.1, hm.2.2⟩, ⟨hs.1, hs.2.1, hs.2.2⟩⟩

/-- Thirty bars whose last close (100.05) lies just above the fast band's
upper edge (100) plus 1% of the band height (1), but far below
`bandHigh × 1.01 = 101`. -/
def c6Bars : List Bar :=
  List.replicate 29
    { minute := 0, symbol := "s", open_p := 100, high := 100, low := 99,
      close := 99.5, volume := 1 } ++
  [ { minute := 29, symbol := "s", open_p := 100, high := 100, low := 99,
      close := 100.05, volume := 1 } ]

set_option maxRecDepth 100000 in
/-- **C6** counterexample: on `c6Bars` the fast signal is `buy` although
the last close does not exceed `bandHigh × (1 + 0.01)` — the code's
threshold scales the band height, not the band bound as the claim
states. -/
theorem c6_breakout_rule_counterexample :
    (Interval.analyze_multilevel c6Bars "s").isSome = true ∧
    ((Interval.analyze_multilevel c6Bars "s").getD default).fastcycle_signal = "buy" ∧
    ¬ (Interval.last_close (Interval.fast_window c6Bars) >
        Interval.band_high (Interval.fast_window c6Bars) * (1 + 0.01)) := by
  with_unfolding_all decide

set_option maxRecDepth 100000 in
/-- Witness for `c6_breakout_rule_amended` on a concrete 30-bar input. -/
theorem c6_breakout_rule_amended_witness :
    (((Interval.analyze_multilevel c6Bars "s").getD default).fastcycle_signal = "buy" ↔
      Interval.last_close (Interval.fast_window c6Bars) >
        Interval.band_high (Interval.fast_window c6Bars) +
        (Interval.band_high (Interval.fast_window c6Bars) -
          Interval.band_low (Interval.fast_window c6Bars)) * 0.01) := by
  have h : Interval.analyze_multilevel c6Bars "s" =
      some ((Interval.analyze_multilevel c6Bars "s").getD default) := by
    with_unfolding_all decide
  exact (c6_breakout_rule_amended c6Bars "s" _ h).1.1
